import Mathlib

/-! Shallow embedding of `src/utils/bvhManager.ts` (the BVH Manager of the
wawa-game-2.5 repository) and proofs of the spec's claims about it.

The manager itself is translated definition-by-definition from the
TypeScript source.  The third-party libraries it calls (three.js vector,
matrix, ray, sphere and box operations, and the `three-mesh-bvh`
acceleration structure) are not part of the repository; they are modelled
abstractly by a record `Lib` of operations and by per-mesh `BVH` records
carrying the library's query functions, so every theorem is universally
quantified over the library's behaviour.  Box3 arithmetic
(`setFromCenterAndSize`, `expandByPoint`) is concrete because the manager
relies on its numeric content.  Scalars are rationals; `Lib.distanceTo`
stands for three.js `Vector3.distanceTo` (Euclidean distance) and is kept
abstract, since the claims about closest-hit selection are order-theoretic
in the distance values the code computes.
-/

/-- A three.js `Vector3`, with rational coordinates. -/
structure Vec3 where
  x : ℚ
  y : ℚ
  z : ℚ
deriving DecidableEq, Repr

/-- A three.js `Ray`: origin and direction. -/
structure Ray where
  origin : Vec3
  direction : Vec3
deriving DecidableEq, Repr

/-- A three.js `Sphere`: center and radius. -/
structure Sphere where
  center : Vec3
  radius : ℚ
deriving DecidableEq, Repr

/-- A three.js `Box3`: axis-aligned box given by min and max corners. -/
structure Box3 where
  min : Vec3
  max : Vec3
deriving DecidableEq, Repr

/-- three.js `Box3.setFromCenterAndSize`: the box of the given size centered
at the given point (each half-size is subtracted from / added to the center). -/
def Box3.setFromCenterAndSize (c size : Vec3) : Box3 :=
  { min := ⟨c.x - size.x / 2, c.y - size.y / 2, c.z - size.z / 2⟩
    max := ⟨c.x + size.x / 2, c.y + size.y / 2, c.z + size.z / 2⟩ }

/-- three.js `Box3.expandByPoint`: grow the box to contain the point. -/
def Box3.expandByPoint (b : Box3) (p : Vec3) : Box3 :=
  { min := ⟨Min.min b.min.x p.x, Min.min b.min.y p.y, Min.min b.min.z p.z⟩
    max := ⟨Max.max b.max.x p.x, Max.max b.max.y p.y, Max.max b.max.z p.z⟩ }

/-- three.js `Vector3.multiplyScalar`. -/
def Vec3.multiplyScalar (v : Vec3) (s : ℚ) : Vec3 :=
  ⟨v.x * s, v.y * s, v.z * s⟩

/-- three.js `Vector3.add`. -/
def Vec3.add (v u : Vec3) : Vec3 :=
  ⟨v.x + u.x, v.y + u.y, v.z + u.z⟩

/-- The hit record returned by `MeshBVH.raycastFirst`, in mesh-local space.
`face`, `faceIndex`, `uv`, `uv2` are opaque payloads the manager copies
through unchanged, so they are modelled as numbers. -/
structure LocalHit where
  point : Vec3
  face : ℕ
  faceIndex : ℕ
  uv : ℕ
  uv2 : ℕ
deriving DecidableEq, Repr

/-- A `THREE.Intersection` as the manager constructs it: distance, world
point, payload fields, and the identity (id) of the hit mesh in `object`. -/
structure Hit where
  distance : ℚ
  point : Vec3
  face : ℕ
  faceIndex : ℕ
  object : ℕ
  uv : ℕ
  uv2 : ℕ
deriving DecidableEq, Repr

/-- `THREE.FrontSide` (the constant the manager passes to `raycastFirst`). -/
def frontSide : ℕ := 0

/-- A `three-mesh-bvh` `MeshBVH` acceleration structure, modelled by its two
query functions used by the manager: `raycastFirst(ray, side)` and
`intersectsBox(box, boxToBvh)` (the matrix argument is a matrix id). -/
structure BVH where
  raycastFirst : Ray → ℕ → Option LocalHit
  intersectsBox : Box3 → ℕ → Bool

/-- The options record passed to the `MeshBVH` constructor. -/
structure BVHOptions where
  maxDepth : ℕ
  maxLeafTris : ℕ
deriving DecidableEq, Repr

/-- The external-library operations the manager calls.  Matrices
(`THREE.Matrix4`) are identified by numbers; `applyMat` is
`Vector3.applyMatrix4`, `transformDir` is `Vector3.transformDirection`,
`invert` is `Matrix4.copy(..).invert()`, `meshBVH` is the (possibly
throwing, hence `Option`) `MeshBVH` constructor, `geomHasIndex` and
`toNonIndexed` are `BufferGeometry.index` presence and
`BufferGeometry.toNonIndexed` on geometry ids, and `distanceTo` is
`Vector3.distanceTo` (Euclidean distance). -/
structure Lib where
  geomHasIndex : ℕ → Bool
  toNonIndexed : ℕ → ℕ
  meshBVH : ℕ → BVHOptions → Option BVH
  invert : ℕ → ℕ
  applyMat : ℕ → Vec3 → Vec3
  transformDir : ℕ → Vec3 → Vec3
  normalize : Vec3 → Vec3
  distanceTo : Vec3 → Vec3 → ℚ
  identityMat : ℕ

/-- three.js `Ray.applyMatrix4`: the origin is transformed as a point, the
direction by `transformDirection`. -/
def rayApplyMat4 (lib : Lib) (mat : ℕ) (r : Ray) : Ray :=
  ⟨lib.applyMat mat r.origin, lib.transformDir mat r.direction⟩

/-- A registry entry (`interface BVHMesh` in the source): the mesh (by id),
its acceleration structure, and the cached inverse world matrix. -/
structure BVHMesh where
  mesh : ℕ
  bvh : BVH
  invMatrixWorld : ℕ

/-- The mutable state of a `THREE.Mesh` object the manager reads or writes:
its geometry (absent geometry models a falsy `mesh.geometry`) and its world
matrix (a matrix id, kept up to date by `updateMatrixWorld`). -/
structure MeshState where
  geometry : Option ℕ
  matrixWorld : ℕ

/-- The full state: every mesh object's state (by mesh id) together with the
manager's private registry `bvhMeshes`, an insertion-ordered key-value list
modelling the JS `Map<THREE.Mesh, BVHMesh>`. -/
structure World where
  meshes : ℕ → MeshState
  bvhMeshes : List (ℕ × BVHMesh)

/-- `Map.get` on the registry (also used to model `Map.has`). -/
def lookupEntry (l : List (ℕ × BVHMesh)) (m : ℕ) : Option BVHMesh :=
  (l.find? (fun p => p.1 == m)).map (fun p => p.2)

/-- Assignment `mesh.geometry = g` on the mesh object with id `m`. -/
def setGeometry (w : World) (m : ℕ) (g : ℕ) : World :=
  { w with
    meshes := fun k =>
      if k = m then { geometry := some g, matrixWorld := (w.meshes k).matrixWorld }
      else w.meshes k }

/-- `BVHManager.buildBVH`: returns the built (or cached) entry, or `none` on
the two failure paths (missing geometry; `MeshBVH` construction throwing),
together with the updated state.  Mirrors the source line by line: the
geometry check comes first, then the cache check, then the index check with
in-place geometry reassignment, BVH construction, registry insertion, and
inverse-matrix caching. -/
def buildBVH (lib : Lib) (w : World) (m : ℕ) : Option BVHMesh × World :=
  match (w.meshes m).geometry with
  | none => (none, w)
  | some g =>
    match lookupEntry w.bvhMeshes m with
    | some e => (some e, w)
    | none =>
      let hasIdx := lib.geomHasIndex g
      let w1 := if hasIdx then w else setGeometry w m (lib.toNonIndexed g)
      let g1 := if hasIdx then g else lib.toNonIndexed g
      match lib.meshBVH g1 ⟨40, 10⟩ with
      | none => (none, w1)
      | some bvh =>
        let e : BVHMesh :=
          { mesh := m, bvh := bvh
            invMatrixWorld := lib.invert (w1.meshes m).matrixWorld }
        (some e, { w1 with bvhMeshes := w1.bvhMeshes ++ [(m, e)] })

/-- `BVHManager.removeBVH`: `Map.delete` on the registry. -/
def removeBVH (w : World) (m : ℕ) : World :=
  { w with bvhMeshes := w.bvhMeshes.filter (fun p => p.1 != m) }

/-- `BVHManager.updateMatrices`: recompute every entry's cached inverse from
the mesh's current world matrix. -/
def updateMatrices (lib : Lib) (w : World) : World :=
  { w with
    bvhMeshes := w.bvhMeshes.map (fun p =>
      (p.1, { p.2 with invMatrixWorld := lib.invert (w.meshes p.2.mesh).matrixWorld })) }

/-- `BVHManager.clear`: empty the registry. -/
def clearAll (w : World) : World :=
  { w with bvhMeshes := [] }

/-- The per-entry candidate hit of `BVHManager.raycast`: transform the ray
into the mesh's local space through the cached inverse matrix, query
`raycastFirst`, transform the hit point back by the mesh's current world
matrix, and package the intersection with the world-space distance from the
ray origin. -/
def meshRayHit (lib : Lib) (w : World) (ray : Ray) (e : BVHMesh) : Option Hit :=
  let localRay := rayApplyMat4 lib e.invMatrixWorld ray
  match e.bvh.raycastFirst localRay frontSide with
  | none => none
  | some h =>
    let worldPoint := lib.applyMat (w.meshes e.mesh).matrixWorld h.point
    let distance := lib.distanceTo ray.origin worldPoint
    some { distance := distance, point := worldPoint, face := h.face
           faceIndex := h.faceIndex, object := e.mesh, uv := h.uv, uv2 := h.uv2 }

/-- One step of the closest-hit accumulation loop shared by `raycast` and
`sphereCast`: keep the candidate only if its distance beats the current
closest distance (initialised to `maxDistance`). -/
def closestStep {α : Type} (cand : α → Option Hit) (acc : Option Hit × ℚ) (p : α) :
    Option Hit × ℚ :=
  match cand p with
  | none => acc
  | some h => if h.distance < acc.2 then (some h, h.distance) else acc

/-- `BVHManager.raycast`: fold the closest-hit loop over all registry
entries, starting from no hit and `closestDistance = maxDistance`. -/
def raycast (lib : Lib) (w : World) (ray : Ray) (maxDistance : ℚ) : Option Hit :=
  (w.bvhMeshes.foldl (closestStep (fun p => meshRayHit lib w ray p.2))
    (none, maxDistance)).1

/-- The per-entry candidate hit of `BVHManager.sphereCast`: transform the
sphere center and the direction into local space through the cached inverse
matrix, build the swept box, gate on `intersectsBox` (with an identity
box-to-BVH matrix), then raycast from the local center along the direction
vector (which the source has scaled in place by `maxDistance` via
`multiplyScalar` when computing the box end point), and package the hit with
the world-space distance from the sphere center. -/
def meshSphereHit (lib : Lib) (w : World) (s : Sphere) (direction : Vec3)
    (maxDistance : ℚ) (e : BVHMesh) : Option Hit :=
  let localCenter := lib.applyMat e.invMatrixWorld s.center
  let box0 := Box3.setFromCenterAndSize localCenter
    ⟨s.radius * 2, s.radius * 2, s.radius * 2⟩
  let localDirection := lib.normalize (lib.applyMat e.invMatrixWorld direction)
  let scaledDirection := localDirection.multiplyScalar maxDistance
  let endPoint := localCenter.add scaledDirection
  let box := box0.expandByPoint endPoint
  if e.bvh.intersectsBox box lib.identityMat then
    match e.bvh.raycastFirst ⟨localCenter, scaledDirection⟩ frontSide with
    | none => none
    | some h =>
      let worldPoint := lib.applyMat (w.meshes e.mesh).matrixWorld h.point
      let distance := lib.distanceTo s.center worldPoint
      some { distance := distance, point := worldPoint, face := h.face
             faceIndex := h.faceIndex, object := e.mesh, uv := h.uv, uv2 := h.uv2 }
  else none

/-- `BVHManager.sphereCast`: the same closest-hit fold over all entries. -/
def sphereCast (lib : Lib) (w : World) (s : Sphere) (direction : Vec3)
    (maxDistance : ℚ) : Option Hit :=
  (w.bvhMeshes.foldl (closestStep (fun p => meshSphereHit lib w s direction maxDistance p.2))
    (none, maxDistance)).1

/-- The downward probe ray `getGroundHeight` constructs: origin
`(x, maxDistance, z)`, direction `(0, -1, 0)`. -/
def downRay (x z maxDistance : ℚ) : Ray :=
  ⟨⟨x, maxDistance, z⟩, ⟨0, -1, 0⟩⟩

/-- `BVHManager.getGroundHeight`: raycast the downward probe with range
`maxDistance * 2` and return the world Y of the hit point, if any. -/
def getGroundHeight (lib : Lib) (w : World) (x z maxDistance : ℚ) : Option ℚ :=
  match raycast lib w (downRay x z maxDistance) (maxDistance * 2) with
  | some h => some h.point.y
  | none => none

/-- `BVHManager.isOnGround`: true when a ground height is found and the
point's Y is within `threshold` of it. -/
def isOnGround (lib : Lib) (w : World) (position : Vec3)
    (threshold maxDistance : ℚ) : Bool :=
  match getGroundHeight lib w position.x position.z maxDistance with
  | none => false
  | some groundHeight => decide (|position.y - groundHeight| < threshold)

/-- The manager's public operations, for reasoning about states reachable by
call sequences.  Queries do not change the state and are recorded as no-ops. -/
inductive Op where
  | build (m : ℕ)
  | remove (m : ℕ)
  | clear
  | updateMats
  | rayQuery
  | sphereQuery
deriving DecidableEq, Repr

/-- Apply one operation to the state. -/
def applyOp (lib : Lib) (w : World) : Op → World
  | .build m => (buildBVH lib w m).2
  | .remove m => removeBVH w m
  | .clear => clearAll w
  | .updateMats => updateMatrices lib w
  | .rayQuery => w
  | .sphereQuery => w

/-- Run a sequence of operations. -/
def run (lib : Lib) (w : World) (ops : List Op) : World :=
  ops.foldl (applyOp lib) w

/-- States reachable by some operation sequence from a state whose registry
is empty (the manager's constructor state; the scene's meshes are
arbitrary). -/
def Reachable (lib : Lib) (w : World) : Prop :=
  ∃ w₀ ops, w₀.bvhMeshes = [] ∧ w = run lib w₀ ops

/-- The registry invariant maintained by every operation: keys are distinct,
each entry's `mesh` field equals its key, and every registered mesh (still)
has geometry. -/
def RegistryOK (w : World) : Prop :=
  ((w.bvhMeshes.map Prod.fst).Nodup) ∧
  ∀ p ∈ w.bvhMeshes, p.2.mesh = p.1 ∧ ((w.meshes p.1).geometry).isSome

/-! Concrete library and world instances for the closed examples.

All geometry used below lies on the y-axis, so the taxicab distance used for
the concrete `distanceTo` agrees with the Euclidean distance of three.js
`Vector3.distanceTo` at every point pair that occurs in the examples. -/

/-- A concrete acceleration structure whose `raycastFirst` always hits the
origin. -/
def originBVH : BVH := ⟨fun _ _ => some ⟨⟨0, 0, 0⟩, 0, 0, 0, 0⟩, fun _ _ => true⟩

/-- A concrete acceleration structure whose `raycastFirst` always hits
`(0, 1, 0)`. -/
def unitYBVH : BVH := ⟨fun _ _ => some ⟨⟨0, 1, 0⟩, 0, 0, 0, 0⟩, fun _ _ => true⟩

/-- A concrete acceleration structure that never hits. -/
def missBVH : BVH := ⟨fun _ _ => none, fun _ _ => false⟩

/-- A concrete external library: identity transforms, taxicab distance, and
a `MeshBVH` constructor that succeeds on geometries 0, 1, 2 and 14 and
throws on everything else; geometries below 3 have an index buffer and
`toNonIndexed` adds 10 to a geometry id. -/
def cLib : Lib where
  geomHasIndex := fun g => decide (g < 3)
  toNonIndexed := fun g => g + 10
  meshBVH := fun g _ =>
    if g = 0 then some originBVH
    else if g = 1 then some unitYBVH
    else if g = 2 then some missBVH
    else if g = 14 then some originBVH
    else none
  invert := fun mat => mat
  applyMat := fun _ v => v
  transformDir := fun _ v => v
  normalize := fun v => v
  distanceTo := fun a b => |a.x - b.x| + |a.y - b.y| + |a.z - b.z|
  identityMat := 0

/-- Concrete scene: mesh `m` has geometry `m`, except mesh 9 which has no
geometry; all world matrices are matrix 0 (the identity under `cLib`). -/
def cMeshes : ℕ → MeshState := fun m => if m = 9 then ⟨none, 0⟩ else ⟨some m, 0⟩

/-- The manager's constructor state over the concrete scene. -/
def cW0 : World := ⟨cMeshes, []⟩

/-- The registry entry `buildBVH` produces for mesh 0 under `cLib`. -/
def cEntry0 : BVHMesh := ⟨0, originBVH, 0⟩

/-- The registry entry `buildBVH` produces for mesh 1 under `cLib`. -/
def cEntry1 : BVHMesh := ⟨1, unitYBVH, 0⟩

/-- A state with mesh 0 registered. -/
def cWorld1 : World := ⟨cMeshes, [(0, cEntry0)]⟩

/-- A state with meshes 0 and 1 registered. -/
def cWorld2 : World := ⟨cMeshes, [(0, cEntry0), (1, cEntry1)]⟩

/-- A downward probe ray from `(0, 2, 0)`. -/
def cRay : Ray := ⟨⟨0, 2, 0⟩, ⟨0, -1, 0⟩⟩

/-! The closest-hit fold: loop invariant and characterisation. -/

/-- Invariant of the closest-hit accumulation loop after processing the
entries in `seen`, with initial closest distance `d`: if no hit was kept the
closest distance is still `d` and every candidate seen is at distance at
least `d`; if a hit was kept it is a candidate of some seen entry, its
distance is the current closest distance, is below `d`, and is minimal among
all candidates seen. -/
def StepInv {α : Type} (cand : α → Option Hit) (d : ℚ) (seen : List α)
    (acc : Option Hit × ℚ) : Prop :=
  (acc.1 = none → acc.2 = d ∧ ∀ p ∈ seen, ∀ h, cand p = some h → d ≤ h.distance) ∧
  (∀ h, acc.1 = some h → acc.2 = h.distance ∧ h.distance < d ∧
    (∃ p ∈ seen, cand p = some h) ∧
    ∀ p ∈ seen, ∀ h2, cand p = some h2 → h.distance ≤ h2.distance)


lemma stepInv_step {α : Type} (cand : α → Option Hit) (d : ℚ) (seen : List α)
    (acc : Option Hit × ℚ) (p : α) (hI : StepInv cand d seen acc) :
    StepInv cand d (seen ++ [p]) (closestStep cand acc p) := by
  obtain ⟨hnone, hsome⟩ := hI
  have hacc2d : acc.2 ≤ d := by
    cases hacc : acc.1 with
    | none => exact le_of_eq (hnone hacc).1
    | some h0 => exact le_of_lt ((hsome h0 hacc).1 ▸ (hsome h0 hacc).2.1)
  have haccmin : ∀ q ∈ seen, ∀ h2, cand q = some h2 → acc.2 ≤ h2.distance := by
    intro q hq h2 hq2
    cases hacc : acc.1 with
    | none => exact le_trans (le_of_eq (hnone hacc).1) ((hnone hacc).2 q hq h2 hq2)
    | some h0 =>
      exact le_trans (le_of_eq (hsome h0 hacc).1) ((hsome h0 hacc).2.2.2 q hq h2 hq2)
  unfold closestStep
  cases hc : cand p with
  | none =>
    constructor
    · intro h1
      refine ⟨(hnone h1).1, fun q hq h hq2 => ?_⟩
      rcases List.mem_append.1 hq with hq | hq
      · exact (hnone h1).2 q hq h hq2
      · rw [List.mem_singleton.1 hq, hc] at hq2; cases hq2
    · intro h h1
      obtain ⟨e1, e2, ⟨q, hq, hq2⟩, e4⟩ := hsome h h1
      refine ⟨e1, e2, ⟨q, List.mem_append_left _ hq, hq2⟩, fun q hq h2 hq3 => ?_⟩
      rcases List.mem_append.1 hq with hq | hq
      · exact e4 q hq h2 hq3
      · rw [List.mem_singleton.1 hq, hc] at hq3; cases hq3
  | some h =>
    show StepInv cand d (seen ++ [p])
      (if h.distance < acc.2 then (some h, h.distance) else acc)
    by_cases hlt : h.distance < acc.2
    · rw [if_pos hlt]
      constructor
      · intro h1; simp at h1
      · intro h2 h2eq
        have hh : h = h2 := by simpa using h2eq
        subst hh
        refine ⟨rfl, lt_of_lt_of_le hlt hacc2d,
          ⟨p, List.mem_append_right _ (List.mem_singleton_self p), hc⟩,
          fun q hq h2 hq2 => ?_⟩
        rcases List.mem_append.1 hq with hq | hq
        · exact le_of_lt (lt_of_lt_of_le hlt (haccmin q hq h2 hq2))
        · rw [List.mem_singleton.1 hq, hc] at hq2
          injection hq2 with e; rw [← e]
    · rw [if_neg hlt]
      push_neg at hlt
      constructor
      · intro h1
        refine ⟨(hnone h1).1, fun q hq h2 hq2 => ?_⟩
        rcases List.mem_append.1 hq with hq | hq
        · exact (hnone h1).2 q hq h2 hq2
        · rw [List.mem_singleton.1 hq, hc] at hq2
          injection hq2 with e; rw [← e]
          exact le_trans (le_of_eq (hnone h1).1.symm) hlt
      · intro h0 h1
        obtain ⟨e1, e2, ⟨q, hq, hq2⟩, e4⟩ := hsome h0 h1
        refine ⟨e1, e2, ⟨q, List.mem_append_left _ hq, hq2⟩, fun q hq h2 hq3 => ?_⟩
        rcases List.mem_append.1 hq with hq | hq
        · exact e4 q hq h2 hq3
        · rw [List.mem_singleton.1 hq, hc] at hq3
          injection hq3 with e; rw [← e]
          exact le_trans (le_of_eq e1.symm) hlt

lemma stepInv_foldl {α : Type} (cand : α → Option Hit) (d : ℚ) (l : List α) :
    ∀ (seen : List α) (acc : Option Hit × ℚ), StepInv cand d seen acc →
    StepInv cand d (seen ++ l) (l.foldl (closestStep cand) acc) := by
  induction l with
  | nil => intro seen acc h; simpa using h
  | cons a t ih =>
    intro seen acc h
    have step := stepInv_step cand d seen acc a h
    have := ih (seen ++ [a]) (closestStep cand acc a) step
    simpa [List.append_assoc] using this

lemma stepInv_init {α : Type} (cand : α → Option Hit) (d : ℚ) :
    StepInv cand d [] (none, d) := by
  constructor
  · intro _; exact ⟨rfl, by simp⟩
  · intro h h1; simp at h1

/-- Characterisation of the closest-hit fold over a whole entry list. -/
lemma closestFold_inv {α : Type} (cand : α → Option Hit) (d : ℚ) (l : List α) :
    StepInv cand d l (l.foldl (closestStep cand) (none, d)) := by
  simpa using stepInv_foldl cand d l [] (none, d) (stepInv_init cand d)

/-! Registry lookup lemmas. -/

lemma lookupEntry_cons (a : ℕ × BVHMesh) (t : List (ℕ × BVHMesh)) (m : ℕ) :
    lookupEntry (a :: t) m = if a.1 = m then some a.2 else lookupEntry t m := by
  unfold lookupEntry
  by_cases h : a.1 = m
  · rw [List.find?_cons_of_pos _ (by simp [h])]; simp [h]
  · rw [List.find?_cons_of_neg _ (by simp [h])]; simp [h]

lemma lookupEntry_eq_none_iff (l : List (ℕ × BVHMesh)) (m : ℕ) :
    lookupEntry l m = none ↔ ∀ p ∈ l, p.1 ≠ m := by
  induction l with
  | nil => simp [lookupEntry]
  | cons a t ih =>
    rw [lookupEntry_cons]
    by_cases h : a.1 = m <;> simp [h, ih]

lemma lookupEntry_some_mem (l : List (ℕ × BVHMesh)) (m : ℕ) (e : BVHMesh)
    (h : lookupEntry l m = some e) : (m, e) ∈ l := by
  induction l with
  | nil => simp [lookupEntry] at h
  | cons a t ih =>
    rw [lookupEntry_cons] at h
    by_cases ha : a.1 = m
    · rw [if_pos ha] at h
      injection h with h
      obtain ⟨k, v⟩ := a
      have hk : k = m := ha
      have hv : v = e := h
      subst hk; subst hv
      exact List.mem_cons_self _ _
    · rw [if_neg ha] at h
      exact List.mem_cons_of_mem a (ih h)

lemma lookupEntry_append_left (l₁ l₂ : List (ℕ × BVHMesh)) (m : ℕ) (e : BVHMesh)
    (h : lookupEntry l₁ m = some e) : lookupEntry (l₁ ++ l₂) m = some e := by
  induction l₁ with
  | nil => simp [lookupEntry] at h
  | cons a t ih =>
    rw [lookupEntry_cons] at h
    rw [show (a :: t) ++ l₂ = a :: (t ++ l₂) from rfl, lookupEntry_cons]
    by_cases ha : a.1 = m
    · rwa [if_pos ha] at h ⊢
    · rw [if_neg ha] at h ⊢; exact ih h

lemma lookupEntry_append_right (l₁ l₂ : List (ℕ × BVHMesh)) (m : ℕ)
    (h : lookupEntry l₁ m = none) : lookupEntry (l₁ ++ l₂) m = lookupEntry l₂ m := by
  induction l₁ with
  | nil => rfl
  | cons a t ih =>
    rw [lookupEntry_cons] at h
    by_cases ha : a.1 = m
    · rw [if_pos ha] at h; cases h
    · rw [if_neg ha] at h
      rw [show (a :: t) ++ l₂ = a :: (t ++ l₂) from rfl, lookupEntry_cons, if_neg ha]
      exact ih h

lemma lookupEntry_singleton (k : ℕ) (e : BVHMesh) (m : ℕ) :
    lookupEntry [(k, e)] m = if k = m then some e else none := by
  rw [lookupEntry_cons]; rfl

lemma lookupEntry_filter_ne (l : List (ℕ × BVHMesh)) (m mr : ℕ) (hne : m ≠ mr) :
    lookupEntry (l.filter (fun p => p.1 != mr)) m = lookupEntry l m := by
  induction l with
  | nil => rfl
  | cons a t ih =>
    by_cases ha : a.1 = mr
    · have hb : (a.1 != mr) = false := by simp [ha]
      rw [List.filter_cons, hb]
      simp only [Bool.false_eq_true, if_false]
      rw [lookupEntry_cons, if_neg (fun hh => hne (hh.symm.trans ha))]
      exact ih
    · have hb : (a.1 != mr) = true := by simp [ha]
      rw [List.filter_cons, hb]
      simp only [if_true]
      rw [lookupEntry_cons, lookupEntry_cons]
      by_cases ham : a.1 = m
      · simp [ham]
      · simp [ham, ih]

lemma lookupEntry_isSome_map (l : List (ℕ × BVHMesh)) (m : ℕ)
    (f : ℕ × BVHMesh → BVHMesh) :
    (lookupEntry (l.map (fun p => (p.1, f p))) m).isSome = (lookupEntry l m).isSome := by
  induction l with
  | nil => rfl
  | cons a t ih =>
    rw [List.map_cons, lookupEntry_cons, lookupEntry_cons]
    by_cases h : a.1 = m <;> simp [h, ih]

/-! Equations and effects of `buildBVH`. -/

lemma setGeometry_meshes_self (w : World) (m g : ℕ) :
    (setGeometry w m g).meshes m = ⟨some g, (w.meshes m).matrixWorld⟩ := by
  simp [setGeometry]

lemma setGeometry_meshes_ne (w : World) (m g k : ℕ) (h : k ≠ m) :
    (setGeometry w m g).meshes k = w.meshes k := by
  simp [setGeometry, h]

lemma setGeometry_bvhMeshes (w : World) (m g : ℕ) :
    (setGeometry w m g).bvhMeshes = w.bvhMeshes := rfl

lemma buildBVH_eq_of_geom_none (lib : Lib) (w : World) (m : ℕ)
    (hg : (w.meshes m).geometry = none) : buildBVH lib w m = (none, w) := by
  unfold buildBVH; rw [hg]

lemma buildBVH_eq_of_cached (lib : Lib) (w : World) (m g : ℕ) (e : BVHMesh)
    (hg : (w.meshes m).geometry = some g)
    (hl : lookupEntry w.bvhMeshes m = some e) : buildBVH lib w m = (some e, w) := by
  unfold buildBVH; rw [hg, hl]

lemma buildBVH_eq_of_throw (lib : Lib) (w : World) (m g : ℕ)
    (hg : (w.meshes m).geometry = some g)
    (hl : lookupEntry w.bvhMeshes m = none)
    (hb : lib.meshBVH (if lib.geomHasIndex g then g else lib.toNonIndexed g) ⟨40, 10⟩ = none) :
    buildBVH lib w m =
      (none, if lib.geomHasIndex g then w else setGeometry w m (lib.toNonIndexed g)) := by
  unfold buildBVH
  rw [hg, hl]
  simp only [hb]

lemma buildBVH_eq_of_built (lib : Lib) (w : World) (m g : ℕ) (bvh : BVH)
    (hg : (w.meshes m).geometry = some g)
    (hl : lookupEntry w.bvhMeshes m = none)
    (hb : lib.meshBVH (if lib.geomHasIndex g then g else lib.toNonIndexed g) ⟨40, 10⟩ = some bvh) :
    buildBVH lib w m =
      (let w1 := if lib.geomHasIndex g then w else setGeometry w m (lib.toNonIndexed g)
       let e : BVHMesh := ⟨m, bvh, lib.invert (w1.meshes m).matrixWorld⟩
       (some e, { w1 with bvhMeshes := w1.bvhMeshes ++ [(m, e)] })) := by
  unfold buildBVH
  rw [hg, hl]
  simp only [hb]

/-- All the facts about one `buildBVH` call that the claims need: the world
matrices of all meshes are untouched, only mesh `m`'s state can change, and
the registry is either unchanged (with a successful result being the cached
entry) or extended by exactly one entry for `m`; a successful call leaves
mesh `m` with geometry. -/
lemma buildBVH_cases (lib : Lib) (w : World) (m : ℕ) :
    (∀ k, ((buildBVH lib w m).2.meshes k).matrixWorld = (w.meshes k).matrixWorld) ∧
    (∀ k, k ≠ m → (buildBVH lib w m).2.meshes k = w.meshes k) ∧
    ((buildBVH lib w m).1.isSome → ((buildBVH lib w m).2.meshes m).geometry.isSome) ∧
    (((buildBVH lib w m).2.bvhMeshes = w.bvhMeshes ∧
       ((buildBVH lib w m).1.isSome → (buildBVH lib w m).1 = lookupEntry w.bvhMeshes m)) ∨
     (∃ e, (buildBVH lib w m).1 = some e ∧ lookupEntry w.bvhMeshes m = none ∧
       e.mesh = m ∧ (buildBVH lib w m).2.bvhMeshes = w.bvhMeshes ++ [(m, e)])) := by
  cases hg : (w.meshes m).geometry with
  | none =>
    rw [buildBVH_eq_of_geom_none lib w m hg]
    exact ⟨fun k => rfl, fun k _ => rfl, by simp, Or.inl ⟨rfl, by simp⟩⟩
  | some g =>
    cases hl : lookupEntry w.bvhMeshes m with
    | some e =>
      rw [buildBVH_eq_of_cached lib w m g e hg hl]
      refine ⟨fun k => rfl, fun k _ => rfl, fun _ => by simp [hg], Or.inl ⟨rfl, fun _ => rfl⟩⟩
    | none =>
      cases hb : lib.meshBVH (if lib.geomHasIndex g then g else lib.toNonIndexed g) ⟨40, 10⟩ with
      | none =>
        rw [buildBVH_eq_of_throw lib w m g hg hl hb]
        by_cases hx : lib.geomHasIndex g
        · rw [if_pos hx]
          exact ⟨fun k => rfl, fun k _ => rfl, by simp, Or.inl ⟨rfl, by simp⟩⟩
        · rw [if_neg hx]
          refine ⟨fun k => ?_, fun k hk => setGeometry_meshes_ne w m _ k hk, by simp,
            Or.inl ⟨rfl, by simp⟩⟩
          by_cases hk : k = m
          · subst hk; rw [setGeometry_meshes_self]
          · rw [setGeometry_meshes_ne w m _ k hk]
      | some bvh =>
        rw [buildBVH_eq_of_built lib w m g bvh hg hl hb]
        by_cases hx : lib.geomHasIndex g
        · simp only [if_pos hx]
          exact ⟨fun _ => trivial, fun _ _ => trivial, fun _ => by simp [hg],
            Or.inr ⟨_, rfl, trivial, rfl, rfl⟩⟩
        · simp only [if_neg hx]
          refine ⟨fun k => ?_, fun k hk => setGeometry_meshes_ne w m _ k hk,
            fun _ => by rw [setGeometry_meshes_self]; simp,
            Or.inr ⟨_, rfl, trivial, rfl, rfl⟩⟩
          by_cases hk : k = m
          · subst hk; rw [setGeometry_meshes_self]
          · rw [setGeometry_meshes_ne w m _ k hk]

lemma buildBVH_geometry_mono (lib : Lib) (w : World) (m k : ℕ)
    (h : ((w.meshes k).geometry).isSome) :
    (((buildBVH lib w m).2.meshes k).geometry).isSome := by
  cases hg : (w.meshes m).geometry with
  | none => rw [buildBVH_eq_of_geom_none lib w m hg]; exact h
  | some g =>
    cases hl : lookupEntry w.bvhMeshes m with
    | some e => rw [buildBVH_eq_of_cached lib w m g e hg hl]; exact h
    | none =>
      cases hb : lib.meshBVH (if lib.geomHasIndex g then g else lib.toNonIndexed g) ⟨40, 10⟩ with
      | none =>
        rw [buildBVH_eq_of_throw lib w m g hg hl hb]
        by_cases hx : lib.geomHasIndex g
        · rw [if_pos hx]; exact h
        · rw [if_neg hx]
          by_cases hk : k = m
          · subst hk; rw [setGeometry_meshes_self]; simp
          · rw [setGeometry_meshes_ne w m _ k hk]; exact h
      | some bvh =>
        rw [buildBVH_eq_of_built lib w m g bvh hg hl hb]
        by_cases hx : lib.geomHasIndex g
        · simp only [if_pos hx]; exact h
        · simp only [if_neg hx]
          by_cases hk : k = m
          · subst hk; rw [setGeometry_meshes_self]; simp
          · rw [setGeometry_meshes_ne w m _ k hk]; exact h

/-! Reachability and the registry invariant. -/

lemma run_append (lib : Lib) (w : World) (l₁ l₂ : List Op) :
    run lib w (l₁ ++ l₂) = run lib (run lib w l₁) l₂ :=
  List.foldl_append _ _ _ _

lemma run_concat (lib : Lib) (w : World) (l : List Op) (op : Op) :
    run lib w (l ++ [op]) = applyOp lib (run lib w l) op := by
  rw [run_append]; rfl

lemma registryOK_applyOp (lib : Lib) (w : World) (op : Op) (h : RegistryOK w) :
    RegistryOK (applyOp lib w op) := by
  obtain ⟨hnd, hmem⟩ := h
  cases op with
  | build m =>
    obtain ⟨hmw, hne, hsg, hreg⟩ := buildBVH_cases lib w m
    rcases hreg with ⟨hsame, _⟩ | ⟨e, hres, hnone, hm, happ⟩
    · show RegistryOK (buildBVH lib w m).2
      refine ⟨by rw [hsame]; exact hnd, ?_⟩
      intro p hp
      rw [hsame] at hp
      exact ⟨(hmem p hp).1, buildBVH_geometry_mono lib w m p.1 (hmem p hp).2⟩
    · show RegistryOK (buildBVH lib w m).2
      constructor
      · rw [happ, List.map_append]
        rw [List.nodup_append]
        refine ⟨hnd, by simp, ?_⟩
        intro k hk hk2
        simp at hk2
        obtain ⟨p, hp, hp1⟩ := List.mem_map.1 hk
        exact (lookupEntry_eq_none_iff w.bvhMeshes m).1 hnone p hp (hp1.trans hk2)
      · intro p hp
        rw [happ] at hp
        rcases List.mem_append.1 hp with hp | hp
        · exact ⟨(hmem p hp).1, buildBVH_geometry_mono lib w m p.1 (hmem p hp).2⟩
        · rw [List.mem_singleton.1 hp]
          refine ⟨hm, ?_⟩
          have := hsg (by rw [hres]; rfl)
          exact this
  | remove m =>
    show RegistryOK (removeBVH w m)
    constructor
    · exact List.Nodup.sublist (List.Sublist.map Prod.fst (List.filter_sublist _)) hnd
    · intro p hp
      exact hmem p (List.mem_of_mem_filter hp)
  | clear =>
    show RegistryOK (clearAll w)
    exact ⟨by simp [clearAll], by simp [clearAll]⟩
  | updateMats =>
    show RegistryOK (updateMatrices lib w)
    constructor
    · have : ((updateMatrices lib w).bvhMeshes.map Prod.fst) = w.bvhMeshes.map Prod.fst := by
        simp [updateMatrices, List.map_map, Function.comp]
      rw [this]; exact hnd
    · intro p hp
      obtain ⟨q, hq, hq2⟩ := List.mem_map.1 hp
      rw [← hq2]
      exact ⟨(hmem q hq).1, (hmem q hq).2⟩
  | rayQuery => exact ⟨hnd, hmem⟩
  | sphereQuery => exact ⟨hnd, hmem⟩

lemma registryOK_run (lib : Lib) (w : World) (ops : List Op) (h : RegistryOK w) :
    RegistryOK (run lib w ops) := by
  induction ops generalizing w with
  | nil => exact h
  | cons op t ih => exact ih (applyOp lib w op) (registryOK_applyOp lib w op h)

lemma reachable_registryOK (lib : Lib) (w : World) (h : Reachable lib w) :
    RegistryOK w := by
  obtain ⟨w₀, ops, h0, rfl⟩ := h
  exact registryOK_run lib w₀ ops ⟨by rw [h0]; simp, by rw [h0]; simp⟩

/-! Characterisation of the closest-hit fold, and per-mesh hit facts. -/

lemma closestFold_some {α : Type} (cand : α → Option Hit) (d : ℚ) (l : List α)
    (h : Hit) (hr : (l.foldl (closestStep cand) (none, d)).1 = some h) :
    (∃ p ∈ l, cand p = some h) ∧ h.distance < d ∧
      ∀ p ∈ l, ∀ h2, cand p = some h2 → h.distance ≤ h2.distance := by
  have hc := (closestFold_inv cand d l).2 h hr
  exact ⟨hc.2.2.1, hc.2.1, hc.2.2.2⟩

lemma closestFold_none {α : Type} (cand : α → Option Hit) (d : ℚ) (l : List α) :
    (l.foldl (closestStep cand) (none, d)).1 = none ↔
      ∀ p ∈ l, ∀ h2, cand p = some h2 → d ≤ h2.distance := by
  constructor
  · intro h1
    exact ((closestFold_inv cand d l).1 h1).2
  · intro hall
    cases hr : (l.foldl (closestStep cand) (none, d)).1 with
    | none => rfl
    | some h =>
      have hc := (closestFold_inv cand d l).2 h hr
      obtain ⟨p, hp, hcp⟩ := hc.2.2.1
      exact absurd hc.2.1 (not_lt.mpr (hall p hp h hcp))

lemma meshRayHit_fields (lib : Lib) (w : World) (ray : Ray) (e : BVHMesh) (h : Hit)
    (hh : meshRayHit lib w ray e = some h) :
    h.object = e.mesh ∧ h.distance = lib.distanceTo ray.origin h.point := by
  simp only [meshRayHit] at hh
  cases hl : e.bvh.raycastFirst (rayApplyMat4 lib e.invMatrixWorld ray) frontSide with
  | none => rw [hl] at hh; cases hh
  | some lh =>
    rw [hl] at hh
    injection hh with hh
    rw [← hh]
    exact ⟨rfl, rfl⟩

lemma meshSphereHit_fields (lib : Lib) (w : World) (s : Sphere) (dir : Vec3)
    (d : ℚ) (e : BVHMesh) (h : Hit) (hh : meshSphereHit lib w s dir d e = some h) :
    h.object = e.mesh ∧ h.distance = lib.distanceTo s.center h.point := by
  simp only [meshSphereHit] at hh
  split at hh
  · split at hh
    · cases hh
    · injection hh with hh
      rw [← hh]
      exact ⟨rfl, rfl⟩
  · cases hh

/-! Query congruence and registry-exclusion lemmas. -/

lemma meshRayHit_congr (lib : Lib) (w w' : World)
    (hmw : ∀ k, (w'.meshes k).matrixWorld = (w.meshes k).matrixWorld)
    (ray : Ray) (e : BVHMesh) :
    meshRayHit lib w' ray e = meshRayHit lib w ray e := by
  unfold meshRayHit
  rw [hmw e.mesh]

lemma meshSphereHit_congr (lib : Lib) (w w' : World)
    (hmw : ∀ k, (w'.meshes k).matrixWorld = (w.meshes k).matrixWorld)
    (s : Sphere) (dir : Vec3) (d : ℚ) (e : BVHMesh) :
    meshSphereHit lib w' s dir d e = meshSphereHit lib w s dir d e := by
  unfold meshSphereHit
  rw [hmw e.mesh]

lemma raycast_congr (lib : Lib) (w w' : World)
    (hreg : w'.bvhMeshes = w.bvhMeshes)
    (hmw : ∀ k, (w'.meshes k).matrixWorld = (w.meshes k).matrixWorld)
    (ray : Ray) (d : ℚ) : raycast lib w' ray d = raycast lib w ray d := by
  unfold raycast
  rw [hreg]
  have hc : (fun p : ℕ × BVHMesh => meshRayHit lib w' ray p.2) =
      (fun p : ℕ × BVHMesh => meshRayHit lib w ray p.2) :=
    funext fun p => meshRayHit_congr lib w w' hmw ray p.2
  rw [hc]

lemma sphereCast_congr (lib : Lib) (w w' : World)
    (hreg : w'.bvhMeshes = w.bvhMeshes)
    (hmw : ∀ k, (w'.meshes k).matrixWorld = (w.meshes k).matrixWorld)
    (s : Sphere) (dir : Vec3) (d : ℚ) :
    sphereCast lib w' s dir d = sphereCast lib w s dir d := by
  unfold sphereCast
  rw [hreg]
  have hc : (fun p : ℕ × BVHMesh => meshSphereHit lib w' s dir d p.2) =
      (fun p : ℕ × BVHMesh => meshSphereHit lib w s dir d p.2) :=
    funext fun p => meshSphereHit_congr lib w w' hmw s dir d p.2
  rw [hc]

lemma noEntry_applyOp (lib : Lib) (w : World) (m : ℕ) (op : Op)
    (hop : op ≠ Op.build m)
    (hw : ∀ p ∈ w.bvhMeshes, p.1 ≠ m ∧ p.2.mesh ≠ m) :
    ∀ p ∈ (applyOp lib w op).bvhMeshes, p.1 ≠ m ∧ p.2.mesh ≠ m := by
  intro p hp
  cases op with
  | build m2 =>
    simp only [applyOp] at hp
    obtain ⟨_, _, _, hreg⟩ := buildBVH_cases lib w m2
    rcases hreg with ⟨hsame, _⟩ | ⟨e, hres, hnone, hm2, happ⟩
    · rw [hsame] at hp; exact hw p hp
    · rw [happ] at hp
      rcases List.mem_append.1 hp with hp | hp
      · exact hw p hp
      · rw [List.mem_singleton.1 hp]
        have hne : m2 ≠ m := fun hh => hop (by rw [hh])
        exact ⟨hne, by rw [hm2]; exact hne⟩
  | remove m2 =>
    simp only [applyOp] at hp
    exact hw p (List.mem_of_mem_filter hp)
  | clear =>
    simp only [applyOp, clearAll] at hp
    cases hp
  | updateMats =>
    simp only [applyOp, updateMatrices] at hp
    obtain ⟨q, hq, hq2⟩ := List.mem_map.1 hp
    rw [← hq2]
    exact ⟨(hw q hq).1, (hw q hq).2⟩
  | rayQuery => exact hw p hp
  | sphereQuery => exact hw p hp

lemma noEntry_run (lib : Lib) (m : ℕ) : ∀ (ops : List Op) (w : World),
    (∀ op ∈ ops, op ≠ Op.build m) →
    (∀ p ∈ w.bvhMeshes, p.1 ≠ m ∧ p.2.mesh ≠ m) →
    ∀ p ∈ (run lib w ops).bvhMeshes, p.1 ≠ m ∧ p.2.mesh ≠ m := by
  intro ops
  induction ops with
  | nil => intro w _ hw; exact hw
  | cons op t ih =>
    intro w hops hw
    exact ih (applyOp lib w op) (fun o ho => hops o (List.mem_cons_of_mem op ho))
      (noEntry_applyOp lib w m op (hops op (List.mem_cons_self op t)) hw)

/-! The claims. -/

/-- Claim C10, counterexample.  The final clause of C10 — "a point higher than
`maxDistance` above the ground-probe start height is never reported as on
ground" — is false: with `maxDistance = 2` the probe starts at `y = 2`; the
point `(0, 5, 0)` is 3 above that start (more than `maxDistance`), yet with
a ground surface hit at the origin (which lies on the probe ray, 2 below its
origin, within the `maxDistance * 2` range) and `threshold = 10`,
`isOnGround` returns `true`, because the threshold test compares `|5 - 0|`
against the caller-chosen threshold, not against `maxDistance`. -/
theorem isOnGround_far_point_reported_on_ground :
    (Vec3.mk 0 5 0).y > 2 + 2 ∧
    isOnGround cLib cWorld1 ⟨0, 5, 0⟩ 10 2 = true := by
  constructor
  · norm_num
  · norm_num [isOnGround, getGroundHeight, downRay, raycast, closestStep, meshRayHit,
      rayApplyMat4, cWorld1, cEntry0, cLib, originBVH, cMeshes, frontSide, List.foldl]

/-- Claim C10, amended.  `isOnGround(position, threshold, maxDistance)`
returns `true` iff `getGroundHeight(position.x, position.z, maxDistance)`
returns some height `h` with `|position.y - h|` strictly less than
`threshold`; in particular it returns `false` whenever `getGroundHeight`
returns `null`.  (The original claim's further consequence about points more
than `maxDistance` above the probe start height is dropped — see the
counterexample.) -/
theorem isOnGround_iff_ground_within_threshold (lib : Lib) (w : World)
    (position : Vec3) (threshold maxDistance : ℚ) :
    (isOnGround lib w position threshold maxDistance = true ↔
      ∃ h, getGroundHeight lib w position.x position.z maxDistance = some h ∧
        |position.y - h| < threshold) ∧
    (getGroundHeight lib w position.x position.z maxDistance = none →
      isOnGround lib w position threshold maxDistance = false) := by
  constructor
  · cases hg : getGroundHeight lib w position.x position.z maxDistance with
    | none => simp [isOnGround, hg]
    | some gh =>
      simp only [isOnGround, hg]
      constructor
      · intro h1
        exact ⟨gh, rfl, of_decide_eq_true h1⟩
      · rintro ⟨h, hh, hlt⟩
        injection hh with hh
        subst hh
        exact decide_eq_true hlt
  · intro hg
    simp [isOnGround, hg]

/-- Claim C10, witness for the amended theorem. -/
theorem isOnGround_iff_ground_within_threshold_witness :
    isOnGround cLib cWorld1 ⟨0, 1, 0⟩ 2 2 = true := by
  refine (isOnGround_iff_ground_within_threshold cLib cWorld1 ⟨0, 1, 0⟩ 2 2).1.mpr ⟨0, ?_, ?_⟩
  · norm_num [getGroundHeight, downRay, raycast, closestStep, meshRayHit,
      rayApplyMat4, cWorld1, cEntry0, cLib, originBVH, cMeshes, frontSide, List.foldl]
  · norm_num

/-- Claim C1.  For every registered-mesh state, ray and maximum distance `d`,
`BVHManager.raycast` returns the globally closest hit among all per-mesh
hits: a returned hit is the per-mesh candidate (`meshRayHit`) of some
registry entry, its `distance` is the world-space distance from the ray
origin to its hit point, that distance is below `d` and is minimal across
every registered mesh's candidate; `raycast` returns `null` exactly when no
registered mesh has a candidate hit within distance `d`. -/
theorem raycast_returns_global_closest (lib : Lib) (w : World) (ray : Ray) (d : ℚ) :
    (∀ h, raycast lib w ray d = some h →
      (∃ p ∈ w.bvhMeshes, meshRayHit lib w ray p.2 = some h) ∧
      h.distance = lib.distanceTo ray.origin h.point ∧
      h.distance < d ∧
      ∀ p ∈ w.bvhMeshes, ∀ h2, meshRayHit lib w ray p.2 = some h2 →
        h.distance ≤ h2.distance) ∧
    (raycast lib w ray d = none ↔
      ∀ p ∈ w.bvhMeshes, ∀ h2, meshRayHit lib w ray p.2 = some h2 → d ≤ h2.distance) := by
  constructor
  · intro h hr
    unfold raycast at hr
    obtain ⟨⟨p, hp, hcp⟩, hlt, hmin⟩ :=
      closestFold_some (fun p => meshRayHit lib w ray p.2) d w.bvhMeshes h hr
    exact ⟨⟨p, hp, hcp⟩, (meshRayHit_fields lib w ray p.2 h hcp).2, hlt, hmin⟩
  · unfold raycast
    exact closestFold_none (fun p => meshRayHit lib w ray p.2) d w.bvhMeshes

/-- Claim C1, witness: with meshes 0 (hit at the origin, distance 2) and 1
(hit at `(0, 1, 0)`, distance 1) registered, the probe from `(0, 2, 0)`
returns mesh 1's hit, and the characterisation confirms its minimality. -/
theorem raycast_returns_global_closest_witness :
    ∃ h, raycast cLib cWorld2 cRay 10 = some h ∧ h.object = 1 ∧ h.distance < 10 ∧
      ∀ p ∈ cWorld2.bvhMeshes, ∀ h2, meshRayHit cLib cWorld2 cRay p.2 = some h2 →
        h.distance ≤ h2.distance := by
  have hr : raycast cLib cWorld2 cRay 10 = some ⟨1, ⟨0, 1, 0⟩, 0, 0, 1, 0, 0⟩ := by
    norm_num [raycast, closestStep, meshRayHit, rayApplyMat4, cWorld2, cEntry0, cEntry1,
      cLib, originBVH, unitYBVH, cMeshes, cRay, frontSide, List.foldl]
  obtain ⟨_, _, hlt, hmin⟩ :=
    (raycast_returns_global_closest cLib cWorld2 cRay 10).1 _ hr
  exact ⟨_, hr, rfl, hlt, hmin⟩

/-- Claim C4.  `getGroundHeight(x, z, maxDistance)` returns exactly the world
Y coordinate of the hit found by raycasting the downward probe ray from
`(x, maxDistance, z)` with range `maxDistance * 2`; that hit is the nearest
downward hit (minimal world distance among every registered mesh's
candidate), and `null` is returned exactly when no candidate lies within
that range. -/
theorem getGroundHeight_nearest_downward_hit (lib : Lib) (w : World) (x z d : ℚ) :
    (∀ y, getGroundHeight lib w x z d = some y →
      ∃ h, raycast lib w (downRay x z d) (d * 2) = some h ∧ y = h.point.y ∧
        (∃ p ∈ w.bvhMeshes, meshRayHit lib w (downRay x z d) p.2 = some h) ∧
        h.distance < d * 2 ∧
        ∀ p ∈ w.bvhMeshes, ∀ h2, meshRayHit lib w (downRay x z d) p.2 = some h2 →
          h.distance ≤ h2.distance) ∧
    (getGroundHeight lib w x z d = none ↔
      ∀ p ∈ w.bvhMeshes, ∀ h2, meshRayHit lib w (downRay x z d) p.2 = some h2 →
        d * 2 ≤ h2.distance) := by
  constructor
  · intro y hy
    simp only [getGroundHeight] at hy
    cases hr : raycast lib w (downRay x z d) (d * 2) with
    | none => rw [hr] at hy; cases hy
    | some h =>
      rw [hr] at hy
      injection hy with hy
      unfold raycast at hr
      obtain ⟨⟨p, hp, hcp⟩, hlt, hmin⟩ :=
        closestFold_some (fun p => meshRayHit lib w (downRay x z d) p.2) (d * 2)
          w.bvhMeshes h hr
      exact ⟨h, rfl, hy.symm, ⟨p, hp, hcp⟩, hlt, hmin⟩
  · constructor
    · intro hy
      simp only [getGroundHeight] at hy
      cases hr : raycast lib w (downRay x z d) (d * 2) with
      | none =>
        unfold raycast at hr
        exact (closestFold_none (fun p => meshRayHit lib w (downRay x z d) p.2)
          (d * 2) w.bvhMeshes).1 hr
      | some h => rw [hr] at hy; cases hy
    · intro hall
      have hr : raycast lib w (downRay x z d) (d * 2) = none := by
        unfold raycast
        exact (closestFold_none (fun p => meshRayHit lib w (downRay x z d) p.2)
          (d * 2) w.bvhMeshes).2 hall
      simp only [getGroundHeight, hr]

/-- Claim C4, witness: over `cWorld2`, `getGroundHeight 0 0 2` probes downward
from `(0, 2, 0)` and returns the Y coordinate 1 of the nearest hit. -/
theorem getGroundHeight_nearest_downward_hit_witness :
    ∃ y, getGroundHeight cLib cWorld2 0 0 2 = some y ∧
      ∃ h, raycast cLib cWorld2 (downRay 0 0 2) (2 * 2) = some h ∧ y = h.point.y ∧
        h.distance < 2 * 2 := by
  have hg : getGroundHeight cLib cWorld2 0 0 2 = some 1 := by
    norm_num [getGroundHeight, downRay, raycast, closestStep, meshRayHit, rayApplyMat4,
      cWorld2, cEntry0, cEntry1, cLib, originBVH, unitYBVH, cMeshes, frontSide, List.foldl]
  obtain ⟨h, hr, hy, hmem, hlt, hmin⟩ :=
    (getGroundHeight_nearest_downward_hit cLib cWorld2 0 0 2).1 1 hg
  exact ⟨1, hg, h, hr, hy, hlt⟩

/-- Claim C7.  `BVHManager.sphereCast` evaluates, for each registered mesh,
the candidate `meshSphereHit` — which transforms the sphere center and the
cast direction into that mesh's local space through its *cached* inverse
world transform (`e.invMatrixWorld`), gates on the swept box, and raycasts
the local sphere center — and returns the candidate whose world-space
distance from the sphere center is minimal across all registered meshes,
or `null` exactly when no registered mesh has a candidate within the
maximum distance. -/
theorem sphereCast_closest_across_meshes (lib : Lib) (w : World) (s : Sphere)
    (dir : Vec3) (d : ℚ) :
    (∀ h, sphereCast lib w s dir d = some h →
      (∃ p ∈ w.bvhMeshes, meshSphereHit lib w s dir d p.2 = some h) ∧
      h.distance = lib.distanceTo s.center h.point ∧
      h.distance < d ∧
      ∀ p ∈ w.bvhMeshes, ∀ h2, meshSphereHit lib w s dir d p.2 = some h2 →
        h.distance ≤ h2.distance) ∧
    (sphereCast lib w s dir d = none ↔
      ∀ p ∈ w.bvhMeshes, ∀ h2, meshSphereHit lib w s dir d p.2 = some h2 →
        d ≤ h2.distance) := by
  constructor
  · intro h hr
    unfold sphereCast at hr
    obtain ⟨⟨p, hp, hcp⟩, hlt, hmin⟩ :=
      closestFold_some (fun p => meshSphereHit lib w s dir d p.2) d w.bvhMeshes h hr
    exact ⟨⟨p, hp, hcp⟩, (meshSphereHit_fields lib w s dir d p.2 h hcp).2, hlt, hmin⟩
  · unfold sphereCast
    exact closestFold_none (fun p => meshSphereHit lib w s dir d p.2) d w.bvhMeshes

/-- Claim C7, witness: the sphere cast from center `(0, 2, 0)` over `cWorld2`
returns mesh 1's hit at distance 1, minimal among both registered meshes. -/
theorem sphereCast_closest_across_meshes_witness :
    ∃ h, sphereCast cLib cWorld2 ⟨⟨0, 2, 0⟩, 1⟩ ⟨0, -1, 0⟩ 10 = some h ∧
      h.object = 1 ∧ h.distance < 10 ∧
      ∀ p ∈ cWorld2.bvhMeshes, ∀ h2,
        meshSphereHit cLib cWorld2 ⟨⟨0, 2, 0⟩, 1⟩ ⟨0, -1, 0⟩ 10 p.2 = some h2 →
          h.distance ≤ h2.distance := by
  have hr : sphereCast cLib cWorld2 ⟨⟨0, 2, 0⟩, 1⟩ ⟨0, -1, 0⟩ 10 =
      some ⟨1, ⟨0, 1, 0⟩, 0, 0, 1, 0, 0⟩ := by
    norm_num [sphereCast, closestStep, meshSphereHit, cWorld2, cEntry0, cEntry1,
      cLib, originBVH, unitYBVH, missBVH, cMeshes, frontSide, List.foldl,
      Box3.setFromCenterAndSize, Box3.expandByPoint, Vec3.multiplyScalar, Vec3.add]
  obtain ⟨_, _, hlt, hmin⟩ :=
    (sphereCast_closest_across_meshes cLib cWorld2 ⟨⟨0, 2, 0⟩, 1⟩ ⟨0, -1, 0⟩ 10).1 _ hr
  exact ⟨_, hr, rfl, hlt, hmin⟩

lemma buildBVH_some_lookup (lib : Lib) (w : World) (m : ℕ) (e : BVHMesh)
    (h : (buildBVH lib w m).1 = some e) :
    lookupEntry (buildBVH lib w m).2.bvhMeshes m = some e := by
  obtain ⟨_, _, _, hreg⟩ := buildBVH_cases lib w m
  rcases hreg with ⟨hsame, hc⟩ | ⟨e2, hres, hnone, _, happ⟩
  · rw [hsame, ← hc (by rw [h]; rfl), h]
  · rw [h] at hres
    injection hres with hres
    rw [happ, lookupEntry_append_right _ _ _ hnone, lookupEntry_singleton, if_pos rfl, hres]

lemma reachable_applyOp (lib : Lib) (w : World) (op : Op) (h : Reachable lib w) :
    Reachable lib (applyOp lib w op) := by
  obtain ⟨w₀, ops, h0, rfl⟩ := h
  exact ⟨w₀, ops ++ [op], h0, (run_concat lib w₀ ops op).symm⟩

/-- Claim C2.  In any reachable state, if mesh `m` is already in the registry
with entry `e`, then `buildBVH m` returns exactly `(e, unchanged state)` —
the cached entry, with no new acceleration structure built — and
consequently, after any successful `buildBVH m` call, calling `buildBVH m`
again returns the same entry and changes nothing. -/
theorem buildBVH_cached_idempotent (lib : Lib) (w : World) (m : ℕ) (e : BVHMesh)
    (hw : Reachable lib w) (hl : lookupEntry w.bvhMeshes m = some e) :
    buildBVH lib w m = (some e, w) ∧
    ∀ e2, (buildBVH lib w m).1 = some e2 →
      buildBVH lib (buildBVH lib w m).2 m = (some e2, (buildBVH lib w m).2) := by
  obtain ⟨_, hmem⟩ := reachable_registryOK lib w hw
  have hin := lookupEntry_some_mem w.bvhMeshes m e hl
  obtain ⟨g, hg⟩ := Option.isSome_iff_exists.1 (hmem (m, e) hin).2
  have h1 : buildBVH lib w m = (some e, w) := buildBVH_eq_of_cached lib w m g e hg hl
  refine ⟨h1, ?_⟩
  intro e2 h2
  rw [h1] at h2 ⊢
  injection h2 with h2
  subst h2
  exact h1

/-- Claim C2, witness: after registering mesh 0 from the constructor state, a
second `buildBVH` call returns the cached entry and leaves the state
unchanged. -/
theorem buildBVH_cached_idempotent_witness :
    buildBVH cLib (run cLib cW0 [Op.build 0]) 0 = (some cEntry0, run cLib cW0 [Op.build 0]) :=
  (buildBVH_cached_idempotent cLib (run cLib cW0 [Op.build 0]) 0 cEntry0
    ⟨cW0, [Op.build 0], rfl, rfl⟩ rfl).1

/-- Claim C5.  `buildBVH m` returns `null` exactly when the mesh has no
geometry, or when the acceleration-structure constructor throws during a
fresh (non-cached) build; in every other case the returned entry is the
registry's entry for `m` after the call.  No error propagates: `buildBVH`
is a total function on the model's states. -/
theorem buildBVH_null_exactly_on_failures (lib : Lib) (w : World) (m : ℕ) :
    ((buildBVH lib w m).1 = none ↔
      (w.meshes m).geometry = none ∨
      ∃ g, (w.meshes m).geometry = some g ∧ lookupEntry w.bvhMeshes m = none ∧
        lib.meshBVH (if lib.geomHasIndex g then g else lib.toNonIndexed g) ⟨40, 10⟩ = none) ∧
    ∀ e, (buildBVH lib w m).1 = some e →
      lookupEntry (buildBVH lib w m).2.bvhMeshes m = some e := by
  constructor
  · constructor
    · intro hn
      cases hg : (w.meshes m).geometry with
      | none => exact Or.inl rfl
      | some g =>
        right
        cases hl : lookupEntry w.bvhMeshes m with
        | some e => rw [buildBVH_eq_of_cached lib w m g e hg hl] at hn; cases hn
        | none =>
          cases hb : lib.meshBVH (if lib.geomHasIndex g then g else lib.toNonIndexed g) ⟨40, 10⟩ with
          | none => exact ⟨g, rfl, rfl, hb⟩
          | some bvh =>
            rw [buildBVH_eq_of_built lib w m g bvh hg hl hb] at hn
            simp at hn
    · intro hor
      rcases hor with hg | ⟨g, hg, hl, hb⟩
      · rw [buildBVH_eq_of_geom_none lib w m hg]
      · rw [buildBVH_eq_of_throw lib w m g hg hl hb]
  · intro e he
    exact buildBVH_some_lookup lib w m e he

/-- Claim C5, witness: mesh 9 has no geometry, and mesh 3's build throws (its
geometry has no index and `toNonIndexed` yields geometry 13, on which the
constructor fails); both calls return `null`. -/
theorem buildBVH_null_exactly_on_failures_witness :
    (buildBVH cLib cW0 9).1 = none ∧ (buildBVH cLib cW0 3).1 = none := by
  constructor
  · exact (buildBVH_null_exactly_on_failures cLib cW0 9).1.mpr (Or.inl rfl)
  · exact (buildBVH_null_exactly_on_failures cLib cW0 3).1.mpr (Or.inr ⟨3, rfl, rfl, rfl⟩)

/-- Claim C8.  When a fresh (non-cached) `buildBVH m` call fails, the registry
is unchanged and every query — raycast, sphere cast, ground height,
on-ground — computes exactly what it computed before the call. -/
theorem buildBVH_failure_preserves_queries (lib : Lib) (w : World) (m : ℕ)
    (hnot : lookupEntry w.bvhMeshes m = none)
    (hfail : (buildBVH lib w m).1 = none) :
    (buildBVH lib w m).2.bvhMeshes = w.bvhMeshes ∧
    (∀ ray d, raycast lib (buildBVH lib w m).2 ray d = raycast lib w ray d) ∧
    (∀ s dir d, sphereCast lib (buildBVH lib w m).2 s dir d = sphereCast lib w s dir d) ∧
    (∀ x z d, getGroundHeight lib (buildBVH lib w m).2 x z d = getGroundHeight lib w x z d) ∧
    (∀ pos t d, isOnGround lib (buildBVH lib w m).2 pos t d = isOnGround lib w pos t d) := by
  obtain ⟨hmw, _, _, hreg⟩ := buildBVH_cases lib w m
  have hrc : (buildBVH lib w m).2.bvhMeshes = w.bvhMeshes := by
    rcases hreg with ⟨hsame, _⟩ | ⟨e, hres, _, _, _⟩
    · exact hsame
    · rw [hfail] at hres; cases hres
  have hray : ∀ ray d, raycast lib (buildBVH lib w m).2 ray d = raycast lib w ray d :=
    fun ray d => raycast_congr lib w _ hrc hmw ray d
  have hsc : ∀ s dir d, sphereCast lib (buildBVH lib w m).2 s dir d = sphereCast lib w s dir d :=
    fun s dir d => sphereCast_congr lib w _ hrc hmw s dir d
  have hgh : ∀ x z d, getGroundHeight lib (buildBVH lib w m).2 x z d = getGroundHeight lib w x z d := by
    intro x z d
    unfold getGroundHeight
    rw [hray]
  have hog : ∀ pos t d, isOnGround lib (buildBVH lib w m).2 pos t d = isOnGround lib w pos t d := by
    intro pos t d
    unfold isOnGround
    rw [hgh]
  exact ⟨hrc, hray, hsc, hgh, hog⟩

/-- Claim C8, witness: mesh 3's failed build leaves the registry and a raycast
unchanged. -/
theorem buildBVH_failure_preserves_queries_witness :
    (buildBVH cLib cW0 3).2.bvhMeshes = cW0.bvhMeshes ∧
    raycast cLib (buildBVH cLib cW0 3).2 cRay 10 = raycast cLib cW0 cRay 10 := by
  have h := buildBVH_failure_preserves_queries cLib cW0 3 rfl rfl
  exact ⟨h.1, h.2.1 cRay 10⟩

/-- Claim C9.  On a fresh (non-cached) `buildBVH m` call for a mesh with
geometry `g`: if `g` has an index buffer the mesh's geometry field is left
unchanged; if not, the geometry field is reassigned to `g.toNonIndexed()`
before building — so registration can mutate the caller's mesh object —
while the mesh's world matrix, every other mesh's state, and every
pre-existing registry entry are untouched (the registry is at most extended
by the one new entry for `m`). -/
theorem buildBVH_geometry_reassignment (lib : Lib) (w : World) (m g : ℕ)
    (hnot : lookupEntry w.bvhMeshes m = none)
    (hg : (w.meshes m).geometry = some g) :
    (lib.geomHasIndex g = true → ((buildBVH lib w m).2.meshes m).geometry = some g) ∧
    (lib.geomHasIndex g = false →
      ((buildBVH lib w m).2.meshes m).geometry = some (lib.toNonIndexed g)) ∧
    (∀ k, k ≠ m → (buildBVH lib w m).2.meshes k = w.meshes k) ∧
    ((buildBVH lib w m).2.meshes m).matrixWorld = (w.meshes m).matrixWorld ∧
    ((buildBVH lib w m).2.bvhMeshes = w.bvhMeshes ∨
      ∃ e, (buildBVH lib w m).2.bvhMeshes = w.bvhMeshes ++ [(m, e)]) := by
  obtain ⟨hmw, hne, _, hreg⟩ := buildBVH_cases lib w m
  refine ⟨?_, ?_, hne, hmw m, ?_⟩
  · intro hx
    cases hb : lib.meshBVH (if lib.geomHasIndex g then g else lib.toNonIndexed g) ⟨40, 10⟩ with
    | none =>
      rw [buildBVH_eq_of_throw lib w m g hg hnot hb]
      simp only [hx, if_true]
      exact hg
    | some bvh =>
      rw [buildBVH_eq_of_built lib w m g bvh hg hnot hb]
      simp only [hx, if_true]
      exact hg
  · intro hx
    cases hb : lib.meshBVH (if lib.geomHasIndex g then g else lib.toNonIndexed g) ⟨40, 10⟩ with
    | none =>
      rw [buildBVH_eq_of_throw lib w m g hg hnot hb]
      simp only [hx, Bool.false_eq_true, if_false]
      rw [setGeometry_meshes_self]
    | some bvh =>
      rw [buildBVH_eq_of_built lib w m g bvh hg hnot hb]
      simp only [hx, Bool.false_eq_true, if_false]
      rw [setGeometry_meshes_self]
  · rcases hreg with ⟨hsame, _⟩ | ⟨e, _, _, _, happ⟩
    · exact Or.inl hsame
    · exact Or.inr ⟨e, happ⟩

/-- Claim C9, witness: mesh 4's geometry (id 4) has no index buffer; after the
build it has been reassigned to `toNonIndexed 4 = 14`. -/
theorem buildBVH_geometry_reassignment_witness :
    cLib.geomHasIndex 4 = false ∧
    ((buildBVH cLib cW0 4).2.meshes 4).geometry = some (cLib.toNonIndexed 4) := by
  have h := buildBVH_geometry_reassignment cLib cW0 4 4 rfl rfl
  exact ⟨rfl, h.2.1 rfl⟩

/-- Claim C3.  In any reachable state, after `removeBVH m` and any further
operations that do not register `m` again, the registry has no entry keyed
by `m`, no entry's `mesh` field is `m` (so `m` contributes no candidate hit
to any query), and neither `raycast` nor `sphereCast` can return an
intersection whose object is `m`. -/
theorem removeBVH_queries_ignore_mesh (lib : Lib) (w : World) (m : ℕ) (ops : List Op)
    (hw : Reachable lib w) (hops : ∀ op ∈ ops, op ≠ Op.build m) :
    lookupEntry (run lib (removeBVH w m) ops).bvhMeshes m = none ∧
    (∀ p ∈ (run lib (removeBVH w m) ops).bvhMeshes, p.2.mesh ≠ m) ∧
    (∀ ray d h, raycast lib (run lib (removeBVH w m) ops) ray d = some h →
      h.object ≠ m) ∧
    (∀ s dir d h, sphereCast lib (run lib (removeBVH w m) ops) s dir d = some h →
      h.object ≠ m) := by
  obtain ⟨_, hmem⟩ := reachable_registryOK lib w hw
  have hstart : ∀ p ∈ (removeBVH w m).bvhMeshes, p.1 ≠ m ∧ p.2.mesh ≠ m := by
    intro p hp
    simp only [removeBVH] at hp
    have hne : p.1 ≠ m := by simpa using List.of_mem_filter hp
    have hmesh := (hmem p (List.mem_of_mem_filter hp)).1
    exact ⟨hne, by rw [hmesh]; exact hne⟩
  have hall := noEntry_run lib m ops (removeBVH w m) hops hstart
  refine ⟨(lookupEntry_eq_none_iff _ m).2 (fun p hp => (hall p hp).1),
    fun p hp => (hall p hp).2, ?_, ?_⟩
  · intro ray d h hr
    unfold raycast at hr
    obtain ⟨⟨p, hp, hcp⟩, _, _⟩ := closestFold_some _ d _ h hr
    rw [(meshRayHit_fields lib _ ray p.2 h hcp).1]
    exact (hall p hp).2
  · intro s dir d h hr
    unfold sphereCast at hr
    obtain ⟨⟨p, hp, hcp⟩, _, _⟩ := closestFold_some _ d _ h hr
    rw [(meshSphereHit_fields lib _ s dir d p.2 h hcp).1]
    exact (hall p hp).2

/-- Claim C3, witness: removing mesh 0 right after registering it leaves no
entry for it. -/
theorem removeBVH_queries_ignore_mesh_witness :
    lookupEntry (run cLib (removeBVH (run cLib cW0 [Op.build 0]) 0) []).bvhMeshes 0 = none :=
  (removeBVH_queries_ignore_mesh cLib (run cLib cW0 [Op.build 0]) 0 []
    ⟨cW0, [Op.build 0], rfl, rfl⟩ (by simp)).1

/-! Helpers for the registry and build-history characterisation (C6). -/

lemma concat_eq_append_cons {α : Type} {ops l₁ l₂ : List α} {x y : α}
    (h : ops ++ [x] = l₁ ++ y :: l₂) :
    (l₂ = [] ∧ ops = l₁ ∧ y = x) ∨ ∃ t, l₂ = t ++ [x] ∧ ops = l₁ ++ y :: t := by
  rcases List.eq_nil_or_concat l₂ with rfl | ⟨t, z, rfl⟩
  · left
    have h2 := List.append_inj' h rfl
    refine ⟨rfl, h2.1, ?_⟩
    injection h2.2 with h3 _
    exact h3.symm
  · right
    rw [List.concat_eq_append] at h
    have h2 : ops ++ [x] = (l₁ ++ y :: t) ++ [z] := by
      rw [h]
      simp
    have h3 := List.append_inj' h2 rfl
    injection h3.2 with h4 _
    refine ⟨t, ?_, h3.1⟩
    rw [List.concat_eq_append, ← h4]

lemma buildBVH_lookup_other (lib : Lib) (w : World) (m2 m : ℕ) (hne : m ≠ m2) :
    lookupEntry (buildBVH lib w m2).2.bvhMeshes m = lookupEntry w.bvhMeshes m := by
  obtain ⟨_, _, _, hreg⟩ := buildBVH_cases lib w m2
  rcases hreg with ⟨hsame, _⟩ | ⟨e, _, _, _, happ⟩
  · rw [hsame]
  · rw [happ]
    cases hl : lookupEntry w.bvhMeshes m with
    | some e2 => exact lookupEntry_append_left _ _ _ _ hl
    | none =>
      rw [lookupEntry_append_right _ _ _ hl, lookupEntry_singleton,
        if_neg (fun hh => hne hh.symm)]

lemma buildBVH_lookup_mono (lib : Lib) (w : World) (m : ℕ)
    (h : (lookupEntry w.bvhMeshes m).isSome) :
    (lookupEntry (buildBVH lib w m).2.bvhMeshes m).isSome := by
  obtain ⟨_, _, _, hreg⟩ := buildBVH_cases lib w m
  rcases hreg with ⟨hsame, _⟩ | ⟨e, _, hnone, _, _⟩
  · rw [hsame]; exact h
  · rw [hnone] at h; cases h

/-- Appending a neutral operation (neither `build m`, `remove m` nor
`clear`) to a history neither creates nor destroys a successful-build
decomposition for `m`. -/
lemma buildDecomp_concat {m : ℕ} (op : Op) (hop1 : op ≠ Op.build m)
    (hop2 : op ≠ Op.remove m) (hop3 : op ≠ Op.clear) (ops : List Op)
    (P : List Op → Prop) :
    (∃ l₁ l₂, ops = l₁ ++ Op.build m :: l₂ ∧ P l₁ ∧
      ∀ o ∈ l₂, o ≠ Op.remove m ∧ o ≠ Op.clear) ↔
    (∃ l₁ l₂, ops ++ [op] = l₁ ++ Op.build m :: l₂ ∧ P l₁ ∧
      ∀ o ∈ l₂, o ≠ Op.remove m ∧ o ≠ Op.clear) := by
  constructor
  · rintro ⟨l₁, l₂, heq, hs, hfree⟩
    refine ⟨l₁, l₂ ++ [op], by rw [heq]; simp, hs, fun o ho => ?_⟩
    rcases List.mem_append.1 ho with ho | ho
    · exact hfree o ho
    · rw [List.mem_singleton.1 ho]
      exact ⟨hop2, hop3⟩
  · rintro ⟨l₁, l₂, heq, hs, hfree⟩
    rcases concat_eq_append_cons heq with ⟨_, _, hy⟩ | ⟨t, hl2, hops⟩
    · exact absurd hy.symm hop1
    · exact ⟨l₁, t, hops, hs, fun o ho => hfree o (by rw [hl2]; exact List.mem_append_left _ ho)⟩

lemma lookup_run_iff (lib : Lib) (w₀ : World) (m : ℕ) (h₀ : w₀.bvhMeshes = []) :
    ∀ ops : List Op,
    (lookupEntry (run lib w₀ ops).bvhMeshes m).isSome ↔
      ∃ l₁ l₂, ops = l₁ ++ Op.build m :: l₂ ∧
        ((buildBVH lib (run lib w₀ l₁) m).1).isSome ∧
        ∀ op ∈ l₂, op ≠ Op.remove m ∧ op ≠ Op.clear := by
  intro ops
  induction ops using List.reverseRecOn with
  | nil =>
    constructor
    · intro h
      have h2 : (lookupEntry w₀.bvhMeshes m).isSome := h
      rw [h₀] at h2
      simp [lookupEntry] at h2
    · rintro ⟨l₁, l₂, heq, _, _⟩
      rcases l₁ with _ | ⟨a, t⟩ <;> simp at heq
  | append_singleton ops op ih =>
    rw [run_concat]
    cases op with
    | build m2 =>
      by_cases hm : m2 = m
      · subst hm
        simp only [applyOp]
        constructor
        · intro hpost
          by_cases hsucc : ((buildBVH lib (run lib w₀ ops) m2).1).isSome
          · exact ⟨ops, [], rfl, hsucc, by simp⟩
          · have hf : (buildBVH lib (run lib w₀ ops) m2).1 = none := by
              cases hres : (buildBVH lib (run lib w₀ ops) m2).1 with
              | none => rfl
              | some e => rw [hres] at hsucc; simp at hsucc
            have hrc : (buildBVH lib (run lib w₀ ops) m2).2.bvhMeshes =
                (run lib w₀ ops).bvhMeshes := by
              obtain ⟨_, _, _, hreg⟩ := buildBVH_cases lib (run lib w₀ ops) m2
              rcases hreg with ⟨hsame, _⟩ | ⟨e, hres, _, _, _⟩
              · exact hsame
              · rw [hf] at hres; cases hres
            rw [hrc] at hpost
            obtain ⟨l₁, l₂, heq, hs, hfree⟩ := ih.1 hpost
            refine ⟨l₁, l₂ ++ [Op.build m2], by rw [heq]; simp, hs, fun o ho => ?_⟩
            rcases List.mem_append.1 ho with ho | ho
            · exact hfree o ho
            · rw [List.mem_singleton.1 ho]
              exact ⟨by simp, by simp⟩
        · rintro ⟨l₁, l₂, heq, hs, hfree⟩
          rcases concat_eq_append_cons heq with ⟨_, hl1, _⟩ | ⟨t, hl2, hops⟩
          · rw [← hl1] at hs
            obtain ⟨e, he⟩ := Option.isSome_iff_exists.1 hs
            exact Option.isSome_iff_exists.2 ⟨e, buildBVH_some_lookup lib (run lib w₀ ops) m2 e he⟩
          · have hpre : (lookupEntry (run lib w₀ ops).bvhMeshes m2).isSome :=
              ih.2 ⟨l₁, t, hops, hs,
                fun o ho => hfree o (by rw [hl2]; exact List.mem_append_left _ ho)⟩
            exact buildBVH_lookup_mono lib (run lib w₀ ops) m2 hpre
      · simp only [applyOp]
        rw [buildBVH_lookup_other lib (run lib w₀ ops) m2 m (fun hh => hm hh.symm), ih]
        exact buildDecomp_concat (Op.build m2) (by simp [hm]) (by simp) (by simp) ops _
    | remove m2 =>
      by_cases hm : m2 = m
      · subst hm
        simp only [applyOp]
        constructor
        · intro hpost
          have hnone : lookupEntry (removeBVH (run lib w₀ ops) m2).bvhMeshes m2 = none := by
            rw [lookupEntry_eq_none_iff]
            intro p hp
            simp only [removeBVH] at hp
            simpa using List.of_mem_filter hp
          rw [hnone] at hpost
          cases hpost
        · rintro ⟨l₁, l₂, heq, hs, hfree⟩
          rcases concat_eq_append_cons heq with ⟨_, _, hy⟩ | ⟨t, hl2, hops⟩
          · simp at hy
          · have := hfree (Op.remove m2)
              (by rw [hl2]; exact List.mem_append_right _ (List.mem_singleton_self _))
            exact absurd rfl this.1
      · simp only [applyOp, removeBVH]
        rw [lookupEntry_filter_ne _ m m2 (fun hh => hm hh.symm), ih]
        exact buildDecomp_concat (Op.remove m2) (by simp) (by simp [hm]) (by simp) ops _
    | clear =>
      constructor
      · intro hpost
        simp only [applyOp, clearAll] at hpost
        simp [lookupEntry] at hpost
      · rintro ⟨l₁, l₂, heq, hs, hfree⟩
        rcases concat_eq_append_cons heq with ⟨_, _, hy⟩ | ⟨t, hl2, hops⟩
        · simp at hy
        · have := hfree Op.clear
            (by rw [hl2]; exact List.mem_append_right _ (List.mem_singleton_self _))
          exact absurd rfl this.2
    | updateMats =>
      simp only [applyOp, updateMatrices]
      rw [lookupEntry_isSome_map, ih]
      exact buildDecomp_concat Op.updateMats (by simp) (by simp) (by simp) ops _
    | rayQuery =>
      simp only [applyOp]
      rw [ih]
      exact buildDecomp_concat Op.rayQuery (by simp) (by simp) (by simp) ops _
    | sphereQuery =>
      simp only [applyOp]
      rw [ih]
      exact buildDecomp_concat Op.sphereQuery (by simp) (by simp) (by simp) ops _

/-- Claim C6.  In every state reachable by a sequence of the manager's
operations from the constructor state, the registry has at most one entry
per mesh (its keys are distinct), and an entry for mesh `m` exists exactly
when some `buildBVH m` call succeeded and no `removeBVH m` or `clear`
follows it in the history — i.e. a successful build after the most recent
removal. -/
theorem registry_entry_iff_successful_build (lib : Lib) (w₀ : World) (ops : List Op)
    (m : ℕ) (h₀ : w₀.bvhMeshes = []) :
    ((run lib w₀ ops).bvhMeshes.map Prod.fst).Nodup ∧
    ((lookupEntry (run lib w₀ ops).bvhMeshes m).isSome ↔
      ∃ l₁ l₂, ops = l₁ ++ Op.build m :: l₂ ∧
        ((buildBVH lib (run lib w₀ l₁) m).1).isSome ∧
        ∀ op ∈ l₂, op ≠ Op.remove m ∧ op ≠ Op.clear) := by
  constructor
  · exact (registryOK_run lib w₀ ops ⟨by rw [h₀]; simp, by rw [h₀]; simp⟩).1
  · exact lookup_run_iff lib w₀ m h₀ ops

/-- Claim C6, witness: after the single-operation history `[build 0]`, the
registry keys are distinct and mesh 0's entry exists, as witnessed by the
decomposition with the successful build at its head. -/
theorem registry_entry_iff_successful_build_witness :
    ((run cLib cW0 [Op.build 0]).bvhMeshes.map Prod.fst).Nodup ∧
    (lookupEntry (run cLib cW0 [Op.build 0]).bvhMeshes 0).isSome := by
  have h := registry_entry_iff_successful_build cLib cW0 [Op.build 0] 0 rfl
  exact ⟨h.1, h.2.mpr ⟨[], [], rfl, by rfl, by simp⟩⟩
